import Mathlib

/-!
Verification of the NordVPN WireGuard config generator (`src/main.py`)
against its natural-language specification.

The Python program is shallowly embedded: every function of `main.py` that
the claims mention becomes an executable Lean definition over explicit
inputs (CLI values, environment, HTTP responses, stdin lines).  Python
dictionaries coming from JSON are modelled as structures with `Option`
fields (`none` = key absent; JSON `null` values are not modelled), Python
truthiness tests on strings/options are modelled explicitly, and
`sys.exit(1)` / uncaught exceptions are modelled as `Except.error ()`.
String operations model CPython behaviour on ASCII text (Python's
`str.strip`, `str.lower`, `int()` and `textwrap.dedent` additionally
handle some non-ASCII whitespace/digits, which no claim exercises).
-/

namespace NordWG

/-! ## Python-style string primitives -/

/-- Characters removed by Python `str.strip()` (ASCII whitespace). -/
def isPySpace (c : Char) : Bool :=
  c == ' ' || c == '\t' || c == '\n' || c == '\r' || c == '\x0b' || c == '\x0c'

/-- Characters counted as indentation by `textwrap.dedent` (`[ \t]`). -/
def isIndentChar (c : Char) : Bool :=
  c == ' ' || c == '\t'

/-- Model of Python `str.strip()` on a character list: drop leading and
trailing whitespace. -/
def pyStrip (l : List Char) : List Char :=
  ((l.dropWhile isPySpace).reverse.dropWhile isPySpace).reverse

/-- Model of Python `str.strip()` on strings. -/
def pyStripStr (s : String) : String :=
  ⟨pyStrip s.toList⟩

/-- Model of Python `str.lower()` (ASCII case folding). -/
def lowerStr (s : String) : String :=
  ⟨s.toList.map Char.toLower⟩

/-- Contiguous-substring test on character lists. -/
def listInfix : List Char → List Char → Bool
  | n, [] => n.isEmpty
  | n, c :: t => n.isPrefixOf (c :: t) || listInfix n t

/-- Model of the Python substring test `needle in hay`. -/
def strContains (needle hay : String) : Bool :=
  listInfix needle.toList hay.toList

/-- Python truthiness of an optional string (`None` and `""` are falsy). -/
def pyTruthy : Option String → Bool
  | none => false
  | some s => !(s == "")

/-- Python string interpolation of a value that may be `None`
(`f"{x}"` renders `None` as the text `"None"`). -/
def pyShowOptStr : Option String → String
  | none => "None"
  | some s => s

/-! ## Data model

`RawServerEntry` mirrors the provider JSON consumed by
`extract_wireguard_servers`; the record mirrors the dict that function
builds for each kept server. -/

structure RawMeta where
  name : Option String
  value : Option String
deriving Repr, DecidableEq

structure RawTech where
  identifier : Option String
  metadata : Option (List RawMeta)
deriving Repr, DecidableEq

structure RawCity where
  name : Option String
deriving Repr, DecidableEq

structure RawCountry where
  name : Option String
  city : Option RawCity
deriving Repr, DecidableEq

structure RawLocation where
  country : Option RawCountry
deriving Repr, DecidableEq

structure RawServer where
  status : Option String
  locations : Option (List RawLocation)
  technologies : Option (List RawTech)
  id : Option Int
  name : Option String
  hostname : Option String
  station : Option String
  load : Option Int
deriving Repr, DecidableEq

/-- The dict built for each kept server in `extract_wireguard_servers`. -/
structure ServerRecord where
  id : Option Int
  name : Option String
  hostname : Option String
  ip : Option String
  load : Option Int
  country : String
  city : String
  public_key : String
deriving Repr, DecidableEq

/-! ## get_token (main.py lines 13-27) -/

/-- Model of `get_token`: CLI value, then `NORD_ACCESS_TOKEN`, then the
hidden prompt.  Mirrors the source exactly: truthiness (`if cmd_token:`)
is tested on the *untrimmed* value, the returned value is trimmed; only
the prompt result is trimmed before its emptiness test. -/
def get_token (cmd_token : Option String) (env_token : Option String)
    (prompt_input : String) : Except Unit String :=
  if pyTruthy cmd_token then .ok (pyStripStr (cmd_token.getD ""))
  else if pyTruthy env_token then .ok (pyStripStr (env_token.getD ""))
  else
    let token := pyStripStr prompt_input
    if token = "" then .error () else .ok token

/-! ## fetch_nordlynx_private_key (main.py lines 30-48) -/

/-- Model of `fetch_nordlynx_private_key`.  The HTTP response is its
status code plus the parsed JSON object (an association list of string
fields).  `sys.exit(1)` on 401, the `raise_for_status()` exception on any
other 4xx/5xx status, and the exit on a missing or empty
`nordlynx_private_key` field are all `Except.error ()`. -/
def fetch_nordlynx_private_key (status : Nat) (body : List (String × String)) :
    Except Unit String :=
  if status = 401 then .error ()
  else if 400 ≤ status ∧ status < 600 then .error ()
  else
    match body.lookup "nordlynx_private_key" with
    | none => .error ()
    | some key => if key = "" then .error () else .ok key

/-! ## extract_wireguard_servers (main.py lines 51-102) -/

/-- Country extraction: `locations[0].get("country", {}).get("name", "Unknown")`. -/
def countryName (loc : RawLocation) : String :=
  (loc.country.bind RawCountry.name).getD "Unknown"

/-- City extraction:
`locations[0].get("country", {}).get("city", {}).get("name", "")`. -/
def cityName (loc : RawLocation) : String :=
  ((loc.country.bind RawCountry.city).bind RawCity.name).getD ""

/-- The country-filter test of main.py line 67:
`if country_filter and country_filter.lower() not in country.lower()`. -/
def filterRejects (country_filter : Option String) (country : String) : Bool :=
  match country_filter with
  | none => false
  | some f => !(f == "") && !(strContains (lowerStr f) (lowerStr country))

/-- First technology with identifier `"wireguard_udp"` (the `for`/`break`
loop of main.py lines 71-74). -/
def firstWgTech (s : RawServer) : Option RawTech :=
  (s.technologies.getD []).find? (fun t => t.identifier == some "wireguard_udp")

/-- Value of the first metadata entry named `"public_key"` of a technology
(the `for`/`break` loop of main.py lines 79-82); `none` when no such entry
exists or it has no value. -/
def firstPublicKey (t : RawTech) : Option String :=
  ((t.metadata.getD []).find? (fun md => md.name == some "public_key")).bind
    RawMeta.value

/-- One iteration of the loop body of `extract_wireguard_servers`:
`some record` when the entry is kept, `none` when a `continue` fires. -/
def toRecord (country_filter : Option String) (s : RawServer) :
    Option ServerRecord :=
  if s.status ≠ some "online" then none
  else
    match s.locations.getD [] with
    | [] => none
    | loc :: _ =>
      if filterRejects country_filter (countryName loc) then none
      else
        match firstWgTech s with
        | none => none
        | some t =>
          match firstPublicKey t with
          | none => none
          | some pk =>
            if pk = "" then none
            else some { id := s.id, name := s.name, hostname := s.hostname,
                        ip := s.station, load := s.load,
                        country := countryName loc, city := cityName loc,
                        public_key := pk }

/-- Lexicographic `≤` on character lists by code point, as Python compares
strings. -/
def listLe : List Char → List Char → Bool
  | [], _ => true
  | _ :: _, [] => false
  | a :: as, b :: bs =>
    if a < b then true else if a = b then listLe as bs else false

/-- Python string `≤` (code-point lexicographic). -/
def strLe (a b : String) : Bool :=
  listLe a.toList b.toList

/-- Comparison of the `name` components of sort keys.  Python's tuple
comparison raises `TypeError` when exactly one of two tied entries lacks a
`name` (`None` vs `str`); we totalise with `none` first, which agrees with
Python wherever Python's comparison is defined (`none`/`none` ties compare
equal in Python via `==`). -/
def optNameLe : Option String → Option String → Bool
  | none, _ => true
  | some _, none => false
  | some a, some b => strLe a b

/-- The sort key comparison of main.py line 101:
`key=lambda x: (x["country"], x["city"], x["name"])`, tuples compared
lexicographically. -/
def keyLe (a b : ServerRecord) : Bool :=
  if a.country = b.country then
    if a.city = b.city then optNameLe a.name b.name
    else strLe a.city b.city
  else strLe a.country b.country

/-- Model of `extract_wireguard_servers`: keep the entries the loop keeps,
in order, then sort by `(country, city, name)`.  `List.insertionSort` is a
stable sort, like Python's `list.sort`, so it computes the same list. -/
def extract_wireguard_servers (all_servers : List RawServer)
    (country_filter : Option String) : List ServerRecord :=
  List.insertionSort (fun a b => keyLe a b = true)
    (all_servers.filterMap (toRecord country_filter))

/-- Model of `fetch_servers`: `raise_for_status()` on the server-list
response, then `extract_wireguard_servers` on the parsed JSON array. -/
def fetch_servers (status : Nat) (raw : List RawServer)
    (country_filter : Option String) : Except Unit (List ServerRecord) :=
  if 400 ≤ status ∧ status < 600 then .error ()
  else .ok (extract_wireguard_servers raw country_filter)

/-! ## choose_server (main.py lines 113-141) -/

/-- Python list slice `l[:n]`: the first `n` elements for `n ≥ 0`, and all
but the last `-n` elements for negative `n`. -/
def pyTake (n : Int) (l : List ServerRecord) : List ServerRecord :=
  if 0 ≤ n then l.take n.toNat else l.take (l.length - (-n).toNat)

/-- Digit test for `int()` parsing (ASCII decimal digits). -/
def isDigitChar (c : Char) : Bool :=
  '0' ≤ c && c ≤ '9'

/-- Tail of a Python decimal literal: digits with single underscores
allowed between digits only. -/
def validDigitTail : List Char → Bool
  | [] => true
  | ['_'] => false
  | '_' :: d :: rest => isDigitChar d && validDigitTail rest
  | c :: rest => isDigitChar c && validDigitTail rest

/-- A nonempty digit sequence starting with a digit, underscores only
between digits (CPython's decimal-literal grammar for `int()`). -/
def validDigitSeq : List Char → Bool
  | [] => false
  | c :: rest => isDigitChar c && validDigitTail rest

/-- Numeric value of an (already validated) digit sequence, underscores
removed. -/
def digitsVal (l : List Char) : Nat :=
  (l.filter (fun c => !(c == '_'))).foldl (fun n c => n * 10 + (c.toNat - '0'.toNat)) 0

/-- Model of Python `int(s)` on ASCII input: strip whitespace, optional
sign, nonempty digit sequence; `none` models the `ValueError`. -/
def pyParseInt (s : String) : Option Int :=
  match pyStrip s.toList with
  | '+' :: rest => if validDigitSeq rest then some (digitsVal rest : Nat) else none
  | '-' :: rest => if validDigitSeq rest then some (-(digitsVal rest : Nat) : Int) else none
  | cs => if validDigitSeq cs then some (digitsVal cs : Nat) else none

/-- The `while True` selection loop of `choose_server`, driven by the list
of stdin lines.  Returns `some (retries, record)` when a valid selection
is eventually entered (`retries` counts the re-prompts caused by
non-numeric or out-of-range input before it), and `none` when stdin is
exhausted first (in Python, `input()` then raises `EOFError`, which
terminates the process). -/
def selectLoop (to_show : List ServerRecord) : List String → Option (Nat × ServerRecord)
  | [] => none
  | i :: rest =>
    match pyParseInt (pyStripStr i) with
    | none => (selectLoop to_show rest).map (fun p => (p.1 + 1, p.2))
    | some choice =>
      if 1 ≤ choice ∧ choice ≤ (to_show.length : Int) then
        match to_show.get? (choice - 1).toNat with
        | some r => some (0, r)
        | none => none
      else (selectLoop to_show rest).map (fun p => (p.1 + 1, p.2))

/-- Model of `choose_server`: exit with status 1 on an empty list,
otherwise display `servers[:max_to_show]` and run the selection loop. -/
def choose_server (servers : List ServerRecord) (max_to_show : Int)
    (stdin : List String) : Except Unit (Nat × ServerRecord) :=
  if servers.isEmpty then .error ()
  else
    match selectLoop (pyTake max_to_show servers) stdin with
    | some res => .ok res
    | none => .error ()

/-! ## build_wireguard_config (main.py lines 144-166)

`textwrap.dedent` and `str.strip` are modelled faithfully, character by
character, because the f-string is dedented *after* interpolation. -/

/-- Split a character list into lines at `'\n'` (as the `(?m)^` anchors of
`textwrap.dedent`'s regexes see them). -/
def splitNl : List Char → List (List Char)
  | [] => [[]]
  | c :: cs =>
    if c = '\n' then [] :: splitNl cs
    else
      match splitNl cs with
      | [] => [[c]]
      | l :: ls => (c :: l) :: ls

/-- Rejoin lines with `'\n'`. -/
def joinNl (ls : List (List Char)) : List Char :=
  List.intercalate ['\n'] ls

/-- How `splitNl` results compose across an append: the last line of the
left part merges with the first line of the right part. -/
def glue : List (List Char) → List (List Char) → List (List Char)
  | [], bs => bs
  | [a], [] => [a]
  | [a], b :: bs => (a ++ b) :: bs
  | a :: as, bs => a :: glue as bs

/-- A line matching `dedent`'s `^[ \t]+$` regex: nonempty and all blanks. -/
def wsOnly (l : List Char) : Bool :=
  !(l.isEmpty) && l.all isIndentChar

/-- Leading `[ \t]` indentation of a line. -/
def leadingWs (l : List Char) : List Char :=
  l.takeWhile isIndentChar

/-- Longest common prefix of two character lists (how `dedent` merges the
margins of successive lines). -/
def commonPre : List Char → List Char → List Char
  | a :: as, b :: bs => if a = b then a :: commonPre as bs else []
  | _, _ => []

/-- Model of `textwrap.dedent` on a line list: blank whitespace-only lines,
compute the common margin of the remaining nonempty lines, and remove it
from every line that starts with it. -/
def dedentLines (ls : List (List Char)) : List (List Char) :=
  let blanked := ls.map (fun l => if wsOnly l then [] else l)
  let indents := (blanked.filter (fun l => !(l.isEmpty))).map leadingWs
  let margin := match indents with
    | [] => []
    | i :: rest => rest.foldl commonPre i
  blanked.map (fun l => if margin.isPrefixOf l then l.drop margin.length else l)

/-- Model of `textwrap.dedent` on a character list. -/
def dedent (l : List Char) : List Char :=
  joinNl (dedentLines (splitNl l))

/-- Model of `build_wireguard_config`: the f-string of main.py lines
152-163 (whose source lines are indented by eight spaces, whose first line
is empty, and whose last line holds the eight spaces before the closing
quotes), interpolated, passed through `dedent`, `strip()`, and `+ "\n"`. -/
def build_wireguard_config (private_key : String) (server : ServerRecord) : String :=
  let address := "10.5.0.2/32"
  let dns := "103.86.96.100, 103.86.99.100"
  ⟨pyStrip (dedent
      ("\n        [Interface]\n        PrivateKey = ".toList ++ private_key.toList
        ++ "\n        Address    = ".toList ++ address.toList
        ++ "\n        DNS        = ".toList ++ dns.toList
        ++ "\n\n        [Peer]\n        PublicKey           = ".toList
        ++ server.public_key.toList
        ++ "\n        AllowedIPs         = 0.0.0.0/0, ::/0\n        Endpoint           = ".toList
        ++ (pyShowOptStr server.ip).toList
        ++ ":51820\n        PersistentKeepalive = 25\n        ".toList))
    ++ ['\n']⟩

/-- Number of lines of `out` that consist exactly of the section header
`h` (how we read "contains exactly one `[Interface]` section"). -/
def headerLines (h : String) (out : String) : Nat :=
  ((splitNl out.toList).filter (fun l => l == h.toList)).length

/-- The interpolated f-string of `build_wireguard_config` as a character
list, parametrised by the three interpolated values (identical, character
for character, to the argument of `dedent` in `build_wireguard_config`). -/
def cfgRaw (pk pub ip : List Char) : List Char :=
  "\n        [Interface]\n        PrivateKey = ".toList ++ pk
    ++ "\n        Address    = ".toList ++ "10.5.0.2/32".toList
    ++ "\n        DNS        = ".toList ++ "103.86.96.100, 103.86.99.100".toList
    ++ "\n\n        [Peer]\n        PublicKey           = ".toList ++ pub
    ++ "\n        AllowedIPs         = 0.0.0.0/0, ::/0\n        Endpoint           = ".toList
    ++ ip ++ ":51820\n        PersistentKeepalive = 25\n        ".toList

/-! ## main (main.py lines 169-216) -/

/-- Model of `main`: the stages run in strict sequence, each fatal exit
short-circuits the rest.  The inputs are the CLI options, the
environment/prompt token sources, the two HTTP responses and the stdin
lines; the `ok` result is the `(filename, contents)` pair written by the
final `open(filename, "w").write(config_text)` — an `error` result means
the process died before that write, so no file is produced. -/
def main_model (cli_token cli_country : Option String) (cli_max : Int)
    (cli_output : Option String) (env_token : Option String)
    (prompt_input : String) (credStatus : Nat)
    (credBody : List (String × String)) (serversStatus : Nat)
    (serversRaw : List RawServer) (stdin : List String) :
    Except Unit (String × String) :=
  match get_token cli_token env_token prompt_input with
  | .error e => .error e
  | .ok _token =>
    match fetch_nordlynx_private_key credStatus credBody with
    | .error e => .error e
    | .ok private_key =>
      match fetch_servers serversStatus serversRaw cli_country with
      | .error e => .error e
      | .ok servers =>
        match choose_server servers cli_max stdin with
        | .error e => .error e
        | .ok (_, server) =>
          let config_text := build_wireguard_config private_key server
          let filename := if pyTruthy cli_output then cli_output.getD ""
                          else pyShowOptStr server.hostname ++ ".conf"
          .ok (filename, config_text)

/-! ## Concrete sample data used by witnesses and counterexamples -/

def sampleServer : ServerRecord :=
  { id := some 1, name := some "de1", hostname := some "de1.nordvpn.com",
    ip := some "1.2.3.4", load := some 10, country := "Germany",
    city := "Berlin", public_key := "PUBKEY1" }

def sampleServer2 : ServerRecord :=
  { id := some 2, name := some "de2", hostname := some "de2.nordvpn.com",
    ip := some "1.2.3.5", load := some 20, country := "Germany",
    city := "Berlin", public_key := "PUBKEY2" }

def sampleServer3 : ServerRecord :=
  { id := some 3, name := some "de3", hostname := some "de3.nordvpn.com",
    ip := some "1.2.3.6", load := some 30, country := "Germany",
    city := "Berlin", public_key := "PUBKEY3" }

/-- The raw server of the spec's §8 scenario (Germany, WireGuard key "ABC"). -/
def rawGermany : RawServer :=
  { status := some "online",
    locations := some [{ country := some { name := some "Germany", city := none } }],
    technologies := some [{ identifier := some "wireguard_udp", metadata := some [{ name := some "public_key", value := some "ABC" }] }],
    id := some 1, name := some "de1", hostname := some "de1.nordvpn.com",
    station := some "1.2.3.4", load := some 10 }

/-- The same entry marked offline (used to witness the exclusion half of C1). -/
def rawOffline : RawServer :=
  { rawGermany with status := some "offline" }

/-! # Claim theorems -/

/-- C2, counterexample.  The claim says each candidate is trimmed before
being accepted or rejected, so the whitespace-only CLI value `" "` should
be rejected (empty after trimming) and resolution should fall through to
the environment value `"X"`.  The code tests `if cmd_token:` on the
*untrimmed* value, so `" "` is truthy, is accepted and is returned trimmed
to the empty string instead of `"X"`. -/
theorem c2_token_trim_counterexample :
    get_token (some " ") (some "X") "Y" = Except.ok ""
    ∧ get_token (some " ") (some "X") "Y" ≠ Except.ok "X" := by
  refine ⟨rfl, ?_⟩
  intro h
  rw [show get_token (some " ") (some "X") "Y" = Except.ok "" from rfl] at h
  simp at h

/-- C2, amended: the resolver prefers CLI over environment over prompt.
CLI and environment candidates are tested for Python truthiness (non-`None`
and nonempty) *before* trimming — a whitespace-only candidate is accepted
and returned trimmed (possibly to the empty string) — while the prompt
result is trimmed before its emptiness test, and an empty trimmed prompt
result terminates the process with a non-zero exit status. -/
theorem c2_token_resolution :
    (∀ (t : String) (e : Option String) (p : String), t ≠ "" →
        get_token (some t) e p = Except.ok (pyStripStr t))
    ∧ (∀ (c : Option String) (ev p : String), pyTruthy c = false → ev ≠ "" →
        get_token c (some ev) p = Except.ok (pyStripStr ev))
    ∧ (∀ (c e : Option String) (p : String), pyTruthy c = false →
        pyTruthy e = false → pyStripStr p ≠ "" →
        get_token c e p = Except.ok (pyStripStr p))
    ∧ (∀ (c e : Option String) (p : String), pyTruthy c = false →
        pyTruthy e = false → pyStripStr p = "" →
        get_token c e p = Except.error ()) := by
  have hfalse : ∀ c : Option String, pyTruthy c = false → (c = none ∨ c = some "") := by
    intro c hc
    cases c with
    | none => exact Or.inl rfl
    | some s =>
      simp only [pyTruthy, Bool.not_eq_false', beq_iff_eq] at hc
      exact Or.inr (by rw [hc])
  refine ⟨?_, ?_, ?_, ?_⟩
  · intro t e p ht
    simp [get_token, pyTruthy, ht]
  · intro c ev p hc hev
    rcases hfalse c hc with h | h <;> subst h <;>
      simp [get_token, pyTruthy, hev]
  · intro c e p hc he hp
    rcases hfalse c hc with h | h <;> rcases hfalse e he with h2 | h2 <;>
      subst h <;> subst h2 <;> simp [get_token, pyTruthy, hp]
  · intro c e p hc he hp
    rcases hfalse c hc with h | h <;> rcases hfalse e he with h2 | h2 <;>
      subst h <;> subst h2 <;> simp [get_token, pyTruthy, hp]

/-- C2, witness for the amended theorem: each preference level at a
concrete input. -/
theorem c2_token_resolution_witness :
    get_token (some " a ") (some "b") "c" = Except.ok "a"
    ∧ get_token none (some " b ") "c" = Except.ok "b"
    ∧ get_token none none " p " = Except.ok "p"
    ∧ get_token none none " " = Except.error () :=
  ⟨c2_token_resolution.1 " a " (some "b") "c" (by decide),
   c2_token_resolution.2.1 none " b " "c" rfl (by decide),
   c2_token_resolution.2.2.1 none none " p " rfl rfl (by decide),
   c2_token_resolution.2.2.2 none none " " rfl rfl (by decide)⟩

/-- C5: `fetch_nordlynx_private_key` terminates the process with a
non-zero exit status exactly when the HTTP status is 401, when the status
is any other client or server error (4xx/5xx), or when the parsed body
lacks a non-empty `nordlynx_private_key` field; otherwise it returns the
field value unchanged, with no validation of the key format. -/
theorem c5_private_key_errors :
    ∀ (status : Nat) (body : List (String × String)),
      (fetch_nordlynx_private_key status body = Except.error () ↔
        status = 401 ∨ (400 ≤ status ∧ status < 600) ∨
          body.lookup "nordlynx_private_key" = none ∨
          body.lookup "nordlynx_private_key" = some "")
      ∧ (∀ key, fetch_nordlynx_private_key status body = Except.ok key →
          body.lookup "nordlynx_private_key" = some key) := by
  intro status body
  by_cases h1 : status = 401
  · simp [fetch_nordlynx_private_key, h1]
  · by_cases h2 : 400 ≤ status ∧ status < 600
    · simp [fetch_nordlynx_private_key, h1, h2]
    · cases hl : body.lookup "nordlynx_private_key" with
      | none => simp [fetch_nordlynx_private_key, h1, h2, hl]
      | some key =>
        by_cases hk : key = ""
        · simp [fetch_nordlynx_private_key, h1, h2, hl, hk]
        · simp [fetch_nordlynx_private_key, h1, h2, hl, hk]

/-- C5, witness: a 200 response whose body holds the key is returned
unchanged. -/
theorem c5_private_key_errors_witness :
    [("nordlynx_private_key", "KEY")].lookup "nordlynx_private_key" = some "KEY" :=
  (c5_private_key_errors 200 [("nordlynx_private_key", "KEY")]).2 "KEY" rfl

/-- Inversion of a kept loop iteration: everything `toRecord cf s = some r`
guarantees about the raw entry and about the record fields. -/
theorem toRecord_some_inv {cf : Option String} {s : RawServer} {r : ServerRecord}
    (h : toRecord cf s = some r) :
    s.status = some "online"
    ∧ (∃ loc rest, s.locations.getD [] = loc :: rest
        ∧ r.country = countryName loc ∧ r.city = cityName loc
        ∧ filterRejects cf (countryName loc) = false)
    ∧ (∃ t, firstWgTech s = some t ∧ firstPublicKey t = some r.public_key)
    ∧ r.public_key ≠ "" := by
  unfold toRecord at h
  split at h
  · exact absurd h (by simp)
  rename_i hstatus
  have hstatus' : s.status = some "online" := by
    by_contra hne
    exact hstatus (by simpa using hne)
  split at h
  · exact absurd h (by simp)
  rename_i loc rest hloc
  split at h
  · exact absurd h (by simp)
  rename_i hfilter
  refine ⟨hstatus', ?_⟩
  split at h
  · exact absurd h (by simp)
  rename_i t hwg
  split at h
  · exact absurd h (by simp)
  rename_i pk hpk
  split at h
  · exact absurd h (by simp)
  rename_i hne
  have hr : r = { id := s.id, name := s.name, hostname := s.hostname,
                  ip := s.station, load := s.load, country := countryName loc,
                  city := cityName loc, public_key := pk } := by
    exact (Option.some.injEq _ _ ▸ h).symm
  subst hr
  exact ⟨⟨loc, rest, hloc, rfl, rfl, by simpa using hfilter⟩, ⟨t, hwg, hpk⟩, hne⟩

/-- C7: the country filter is a case-insensitive substring match against
the extracted country name.  A kept record's country contains the
(lowered) filter unless the filter is empty; an entry whose extracted
country does not contain the nonempty filter is dropped; and the filter
`"lithu"` matches the country `"Lithuania"`. -/
theorem c7_country_filter :
    (∀ (cf : String) (s : RawServer) (r : ServerRecord),
        toRecord (some cf) s = some r →
        cf = "" ∨ strContains (lowerStr cf) (lowerStr r.country) = true)
    ∧ (∀ (cf : String) (s : RawServer) (loc : RawLocation) (rest : List RawLocation),
        s.locations.getD [] = loc :: rest → cf ≠ "" →
        strContains (lowerStr cf) (lowerStr (countryName loc)) = false →
        toRecord (some cf) s = none)
    ∧ strContains (lowerStr "lithu") (lowerStr "Lithuania") = true := by
  refine ⟨?_, ?_, by decide⟩
  · intro cf s r h
    obtain ⟨-, ⟨loc, rest, hloc, hcountry, -, hfilter⟩, -, -⟩ := toRecord_some_inv h
    rw [hcountry]
    by_cases hcf : cf = ""
    · exact Or.inl hcf
    · refine Or.inr ?_
      simp only [filterRejects, Bool.and_eq_false_iff, Bool.not_eq_false',
        Bool.not_eq_false, beq_iff_eq] at hfilter
      rcases hfilter with h1 | h1
      · exact absurd h1 hcf
      · exact h1
  · intro cf s loc rest hloc hcf hmatch
    have hfr : filterRejects (some cf) (countryName loc) = true := by
      simp [filterRejects, hcf, hmatch]
    by_cases hstatus : s.status = some "online"
    · simp [toRecord, hstatus, hloc, hfr]
    · simp [toRecord, hstatus]

/-- C7, witness: the German scenario entry is dropped under the
non-matching filter `"france"`. -/
theorem c7_country_filter_witness :
    toRecord (some "france") rawGermany = none :=
  c7_country_filter.2.1 "france" rawGermany
    { country := some { name := some "Germany", city := none } } []
    rfl (by decide) (by decide)

/-- C10: an entry that passes the status, location, technology and
public-key checks but whose first location lacks a country name is still
kept, with `country` defaulted to `"Unknown"` (and `city` defaulted to
`""` when the city name is also missing), and the country filter is then
matched against the defaulted value `"Unknown"` (keeping the entry when it
matches, dropping it when it does not) rather than unconditionally
excluding the entry. -/
theorem c10_unknown_country_default :
    ∀ (s : RawServer) (cf : Option String) (loc : RawLocation)
      (rest : List RawLocation) (t : RawTech) (pk : String),
      s.status = some "online" →
      s.locations.getD [] = loc :: rest →
      loc.country.bind RawCountry.name = none →
      firstWgTech s = some t →
      firstPublicKey t = some pk →
      pk ≠ "" →
      (filterRejects cf "Unknown" = false →
        ∃ r, toRecord cf s = some r ∧ r.country = "Unknown" ∧ r.public_key = pk
          ∧ ((loc.country.bind RawCountry.city).bind RawCity.name = none →
              r.city = ""))
      ∧ (filterRejects cf "Unknown" = true → toRecord cf s = none) := by
  intro s cf loc rest t pk hstatus hloc hname hwg hpk hpkne
  have hcountry : countryName loc = "Unknown" := by
    simp [countryName, hname]
  constructor
  · intro hfilter
    refine ⟨{ id := s.id, name := s.name, hostname := s.hostname,
              ip := s.station, load := s.load, country := "Unknown",
              city := cityName loc, public_key := pk }, ?_, rfl, rfl, ?_⟩
    · simp [toRecord, hstatus, hloc, hcountry, hfilter, hwg, hpk, hpkne]
    · intro hcity
      simp [cityName, hcity]
  · intro hfilter
    simp [toRecord, hstatus, hloc, hcountry, hfilter]

/-- C10, witness: a concrete online WireGuard entry with no country name is
kept with country `"Unknown"` and city `""` under the matching filter
`"unk"`. -/
theorem c10_unknown_country_default_witness :
    ∃ r, toRecord (some "unk")
        { rawGermany with locations := some [{ country := none }] } = some r
      ∧ r.country = "Unknown" ∧ r.public_key = "ABC" ∧ r.city = "" := by
  have h := c10_unknown_country_default
    { rawGermany with locations := some [{ country := none }] }
    (some "unk") { country := none } []
    { identifier := some "wireguard_udp", metadata := some [{ name := some "public_key", value := some "ABC" }] }
    "ABC" rfl rfl rfl (by decide) (by decide) (by decide)
  obtain ⟨r, hr, hc, hp, hcity⟩ := h.1 (by decide)
  exact ⟨r, hr, hc, hp, hcity rfl⟩

/-- Membership in the filtered catalog: the sort is a permutation of the
kept loop iterations. -/
theorem mem_extract_iff {raw : List RawServer} {cf : Option String}
    {r : ServerRecord} :
    r ∈ extract_wireguard_servers raw cf ↔ ∃ s ∈ raw, toRecord cf s = some r := by
  unfold extract_wireguard_servers
  rw [List.mem_insertionSort, List.mem_filterMap]

/-- C1: every record in the result of `extract_wireguard_servers` comes
from a raw entry that is online, has at least one location, and has a
`wireguard_udp` technology carrying a nonempty `public_key` metadata
value; every raw entry failing any of these conditions is dropped by the
loop (`toRecord … = none`), hence contributes nothing to the result. -/
theorem c1_filter_invariant :
    (∀ (raw : List RawServer) (cf : Option String) (r : ServerRecord),
        r ∈ extract_wireguard_servers raw cf →
        ∃ s ∈ raw, toRecord cf s = some r
          ∧ s.status = some "online"
          ∧ s.locations.getD [] ≠ []
          ∧ ∃ t ∈ s.technologies.getD [], t.identifier = some "wireguard_udp"
              ∧ ∃ md ∈ t.metadata.getD [], md.name = some "public_key"
                ∧ ∃ v, md.value = some v ∧ v ≠ "")
    ∧ (∀ (cf : Option String) (s : RawServer),
        (s.status ≠ some "online" ∨ s.locations.getD [] = []
          ∨ (∀ t ∈ s.technologies.getD [], t.identifier = some "wireguard_udp" →
              ∀ md ∈ t.metadata.getD [], md.name = some "public_key" →
                ∀ v, md.value = some v → v = "")) →
        toRecord cf s = none)
    ∧ (∀ (raw : List RawServer) (cf : Option String) (r : ServerRecord),
        r ∈ extract_wireguard_servers raw cf ↔ ∃ s ∈ raw, toRecord cf s = some r) := by
  refine ⟨?_, ?_, fun raw cf r => mem_extract_iff⟩
  · intro raw cf r hr
    obtain ⟨s, hs, hrec⟩ := mem_extract_iff.mp hr
    obtain ⟨hstatus, ⟨loc, rest, hloc, -, -, -⟩, ⟨t, hwg, hpk⟩, hne⟩ :=
      toRecord_some_inv hrec
    refine ⟨s, hs, hrec, hstatus, by rw [hloc]; simp, t, ?_, ?_, ?_⟩
    · exact List.mem_of_find?_eq_some hwg
    · exact by simpa using List.find?_some hwg
    · obtain ⟨md, hfind, hval⟩ := Option.bind_eq_some.mp hpk
      exact ⟨md, List.mem_of_find?_eq_some hfind,
        by simpa using List.find?_some hfind, r.public_key, hval, hne⟩
  · intro cf s hfail
    rcases hfail with hstatus | hloc | htech
    · simp [toRecord, hstatus]
    · by_cases hstatus : s.status = some "online"
      · simp [toRecord, hstatus, hloc]
      · simp [toRecord, hstatus]
    · by_cases hstatus : s.status = some "online"
      · cases hloc : s.locations.getD [] with
        | nil => simp [toRecord, hstatus, hloc]
        | cons loc rest =>
          by_cases hfilter : filterRejects cf (countryName loc) = true
          · simp [toRecord, hstatus, hloc, hfilter]
          · cases hwg : firstWgTech s with
            | none => simp [toRecord, hstatus, hloc, hfilter, hwg]
            | some t =>
              have ht := List.mem_of_find?_eq_some hwg
              have htid : t.identifier = some "wireguard_udp" := by
                simpa using List.find?_some hwg
              cases hpk : firstPublicKey t with
              | none => simp [toRecord, hstatus, hloc, hfilter, hwg, hpk]
              | some v =>
                obtain ⟨md, hfind, hval⟩ := Option.bind_eq_some.mp hpk
                have hv : v = "" :=
                  htech t ht htid md (List.mem_of_find?_eq_some hfind)
                    (by simpa using List.find?_some hfind) v hval
                simp [toRecord, hstatus, hloc, hfilter, hwg, hpk, hv]
      · simp [toRecord, hstatus]

/-- C1, witness: the offline variant of the scenario entry is excluded,
and the online scenario entry's record is in the catalog. -/
theorem c1_filter_invariant_witness :
    toRecord none rawOffline = none :=
  c1_filter_invariant.2.1 none rawOffline (Or.inl (by decide))

/-- C8: a non-numeric or out-of-range stdin line never terminates the
selection loop — it adds one re-prompt and the loop continues with the
remaining input, whatever came before (so there is no maximum attempt
count) — and on 3 displayed servers the input sequence
`["abc", "7", "2"]` re-prompts exactly twice and then returns the second
displayed server. -/
theorem c8_retry_scenario :
    (∀ (ts : List ServerRecord) (i : String) (rest : List String),
        pyParseInt (pyStripStr i) = none →
        selectLoop ts (i :: rest) =
          (selectLoop ts rest).map (fun p => (p.1 + 1, p.2)))
    ∧ (∀ (ts : List ServerRecord) (i : String) (rest : List String) (c : Int),
        pyParseInt (pyStripStr i) = some c →
        ¬(1 ≤ c ∧ c ≤ (ts.length : Int)) →
        selectLoop ts (i :: rest) =
          (selectLoop ts rest).map (fun p => (p.1 + 1, p.2)))
    ∧ choose_server [sampleServer, sampleServer2, sampleServer3] 3
        ["abc", "7", "2"] = Except.ok (2, sampleServer2) := by
  refine ⟨?_, ?_, rfl⟩
  · intro ts i rest h
    simp [selectLoop, h]
  · intro ts i rest c h hrange
    simp [selectLoop, h, hrange]

/-- C8, witness: one non-numeric line at a concrete input. -/
theorem c8_retry_scenario_witness :
    selectLoop [sampleServer] ("zz" :: ["1"]) =
      (selectLoop [sampleServer] ["1"]).map (fun p => (p.1 + 1, p.2)) :=
  c8_retry_scenario.1 [sampleServer] "zz" ["1"] (by decide)

/-- C3, counterexample.  The claim quantifies over every `max_to_show`
value; for the reachable value `-1` (`-m -1` parses as an int) the
displayed list is not "the first `-1` entries" (no entries) — Python's
slice `servers[:-1]` keeps all but the last entry, so two of three
servers are displayed and selectable. -/
theorem c3_truncation_counterexample :
    pyTake (-1) [sampleServer, sampleServer2, sampleServer3]
        = [sampleServer, sampleServer2]
    ∧ choose_server [sampleServer, sampleServer2, sampleServer3] (-1) ["2"]
        = Except.ok (0, sampleServer2) :=
  ⟨rfl, rfl⟩

/-- Any record the selection loop returns is one of the displayed ones. -/
theorem selectLoop_mem {ts : List ServerRecord} :
    ∀ (ins : List String) (n : Nat) (r : ServerRecord),
      selectLoop ts ins = some (n, r) → r ∈ ts := by
  intro ins
  induction ins with
  | nil => intro n r h; simp [selectLoop] at h
  | cons i rest ih =>
    intro n r h
    unfold selectLoop at h
    split at h
    · obtain ⟨q, hq, hq2⟩ := Option.map_eq_some'.mp h
      cases hq2
      exact ih q.1 q.2 hq
    · rename_i c hparse
      split at h
      · split at h
        · rename_i r' hget
          have heq : ((0 : Nat), r') = (n, r) := by simpa using h
          cases heq
          exact List.get?_mem hget
        · exact absurd h (by simp)
      · obtain ⟨q, hq, hq2⟩ := Option.map_eq_some'.mp h
        cases hq2
        exact ih q.1 q.2 hq

/-- C3, amended: for every `max_to_show ≥ 0` the displayed list is exactly
the first `max_to_show` entries of the list in list order (for negative
values Python slice semantics apply, dropping entries from the end); a
valid in-range selection `c` returns the `c`-th record of the displayed
truncated list; and every returned record is one of the displayed ones. -/
theorem c3_truncation_and_selection :
    (∀ (servers : List ServerRecord) (m : Int), 0 ≤ m →
        pyTake m servers = servers.take m.toNat)
    ∧ (∀ (servers : List ServerRecord) (m : Int) (s : String)
          (rest : List String) (c : Int),
        servers ≠ [] → pyParseInt (pyStripStr s) = some c →
        1 ≤ c → c ≤ ((pyTake m servers).length : Int) →
        ∃ r, (pyTake m servers).get? (c - 1).toNat = some r
          ∧ choose_server servers m (s :: rest) = Except.ok (0, r))
    ∧ (∀ (servers : List ServerRecord) (m : Int) (stdin : List String)
          (n : Nat) (r : ServerRecord),
        choose_server servers m stdin = Except.ok (n, r) →
        r ∈ pyTake m servers) := by
  refine ⟨?_, ?_, ?_⟩
  · intro servers m hm
    simp [pyTake, hm]
  · intro servers m s rest c hne hparse h1 h2
    have hlt : (c - 1).toNat < (pyTake m servers).length := by omega
    have hget : (pyTake m servers).get? (c - 1).toNat
        = some ((pyTake m servers).get ⟨(c - 1).toNat, hlt⟩) :=
      List.get?_eq_get hlt
    refine ⟨_, hget, ?_⟩
    have hemp : servers.isEmpty = false := by simpa [List.isEmpty_iff] using hne
    have hrange : 1 ≤ c ∧ c ≤ ((pyTake m servers).length : Int) := ⟨h1, h2⟩
    have hlt2 : c.toNat - 1 < (pyTake m servers).length := by omega
    simp [choose_server, hemp, selectLoop, hparse, hrange,
      List.getElem?_eq_getElem hlt2]
  · intro servers m stdin n r h
    unfold choose_server at h
    split at h
    · exact absurd h (by simp)
    cases hsel : selectLoop (pyTake m servers) stdin with
    | none => rw [hsel] at h; exact absurd h (by simp)
    | some p =>
      rw [hsel] at h
      have hp : p = (n, r) := by simpa using h
      subst hp
      exact selectLoop_mem stdin n r hsel

/-- C3, witness for the amended theorem: nonnegative cap at a concrete
input. -/
theorem c3_truncation_and_selection_witness :
    pyTake 2 [sampleServer, sampleServer2, sampleServer3]
      = [sampleServer, sampleServer2] := by
  rw [c3_truncation_and_selection.1 [sampleServer, sampleServer2, sampleServer3]
    2 (by decide)]
  decide

/-- C9: whenever any stage terminates fatally — the token prompt coming
back empty, the credentials endpoint answering 401 or any other 4xx/5xx
status or lacking the key, the server-list endpoint answering 4xx/5xx,
and in particular the filtered server list being empty (or stdin running
out), which makes `choose_server` exit with a non-zero status — the
process terminates before the output-file write is reached: `main_model`
yields `Except.error ()`, which carries no `(filename, contents)` pair,
so a failed run produces no output file. -/
theorem c9_no_file_on_failure :
    ∀ (cli_token cli_country : Option String) (cli_max : Int)
      (cli_output env_token : Option String) (prompt_input : String)
      (credStatus : Nat) (credBody : List (String × String))
      (serversStatus : Nat) (serversRaw : List RawServer) (stdin : List String),
      (get_token cli_token env_token prompt_input = Except.error ()
        ∨ fetch_nordlynx_private_key credStatus credBody = Except.error ()
        ∨ fetch_servers serversStatus serversRaw cli_country = Except.error ()
        ∨ extract_wireguard_servers serversRaw cli_country = []
        ∨ choose_server (extract_wireguard_servers serversRaw cli_country)
            cli_max stdin = Except.error ()) →
      main_model cli_token cli_country cli_max cli_output env_token
          prompt_input credStatus credBody serversStatus serversRaw stdin
        = Except.error () := by
  intro cli_token cli_country cli_max cli_output env_token prompt_input
    credStatus credBody serversStatus serversRaw stdin h
  unfold main_model
  cases hg : get_token cli_token env_token prompt_input with
  | error e => rfl
  | ok token =>
    cases hk : fetch_nordlynx_private_key credStatus credBody with
    | error e => rfl
    | ok private_key =>
      cases hf : fetch_servers serversStatus serversRaw cli_country with
      | error e => rfl
      | ok servers =>
        have hserv : servers = extract_wireguard_servers serversRaw cli_country := by
          unfold fetch_servers at hf
          split at hf
          · exact absurd hf (by simp)
          · exact (by simpa using hf :
              extract_wireguard_servers serversRaw cli_country = servers).symm
        have hcs : choose_server servers cli_max stdin = Except.error () := by
          rcases h with h | h | h | h | h
          · rw [hg] at h; exact absurd h (by simp)
          · rw [hk] at h; exact absurd h (by simp)
          · rw [hf] at h; exact absurd h (by simp)
          · rw [hserv, h]; rfl
          · rw [hserv]; exact h
        simp [hcs]

/-- C9, witness: three concrete fatal runs — an empty token prompt, a 401
from the credentials endpoint, and an empty filtered server list — each
yield a fatal result and no file. -/
theorem c9_no_file_on_failure_witness :
    main_model none none 50 none none "" 200
        [("nordlynx_private_key", "K")] 200 [] [] = Except.error ()
    ∧ main_model (some "T") none 50 none none "" 401
        [("nordlynx_private_key", "K")] 200 [] [] = Except.error ()
    ∧ main_model (some "T") none 50 none none "" 200
        [("nordlynx_private_key", "K")] 200 [] [] = Except.error () :=
  ⟨c9_no_file_on_failure none none 50 none none "" 200
      [("nordlynx_private_key", "K")] 200 [] [] (Or.inl rfl),
   c9_no_file_on_failure (some "T") none 50 none none "" 401
      [("nordlynx_private_key", "K")] 200 [] [] (Or.inr (Or.inl rfl)),
   c9_no_file_on_failure (some "T") none 50 none none "" 200
      [("nordlynx_private_key", "K")] 200 [] []
      (Or.inr (Or.inr (Or.inr (Or.inl rfl))))⟩

/-- Totality of the code-point lexicographic order. -/
theorem listLe_total : ∀ (a b : List Char), listLe a b = true ∨ listLe b a = true := by
  intro a
  induction a with
  | nil => intro b; exact Or.inl rfl
  | cons x as ih =>
    intro b
    cases b with
    | nil => exact Or.inr rfl
    | cons y bs =>
      rcases lt_trichotomy x y with h | h | h
      · exact Or.inl (by simp [listLe, h])
      · subst h
        rcases ih bs with h2 | h2
        · exact Or.inl (by simp [listLe, lt_irrefl, h2])
        · exact Or.inr (by simp [listLe, lt_irrefl, h2])
      · exact Or.inr (by simp [listLe, h])

/-- Transitivity of the code-point lexicographic order. -/
theorem listLe_trans : ∀ (a b c : List Char),
    listLe a b = true → listLe b c = true → listLe a c = true := by
  intro a
  induction a with
  | nil => intro b c _ _; rfl
  | cons x as ih =>
    intro b c h1 h2
    cases b with
    | nil => simp [listLe] at h1
    | cons y bs =>
      cases c with
      | nil => simp [listLe] at h2
      | cons z cs =>
        simp only [listLe] at h1 h2 ⊢
        by_cases hxy : x < y
        · rw [if_pos hxy] at h1
          by_cases hyz : y < z
          · simp [lt_trans hxy hyz]
          · rw [if_neg hyz] at h2
            by_cases hyz2 : y = z
            · subst hyz2; simp [hxy]
            · rw [if_neg hyz2] at h2; exact absurd h2 (by simp)
        · rw [if_neg hxy] at h1
          by_cases hxy2 : x = y
          · subst hxy2
            rw [if_pos rfl] at h1
            by_cases hyz : x < z
            · simp [hyz]
            · rw [if_neg hyz] at h2
              by_cases hyz2 : x = z
              · subst hyz2
                rw [if_pos rfl] at h2
                simp [lt_irrefl, ih bs cs h1 h2]
              · rw [if_neg hyz2] at h2; exact absurd h2 (by simp)
          · rw [if_neg hxy2] at h1; exact absurd h1 (by simp)

/-- Antisymmetry of the code-point lexicographic order. -/
theorem listLe_antisymm : ∀ (a b : List Char),
    listLe a b = true → listLe b a = true → a = b := by
  intro a
  induction a with
  | nil =>
    intro b _ h2
    cases b with
    | nil => rfl
    | cons y bs => simp [listLe] at h2
  | cons x as ih =>
    intro b h1 h2
    cases b with
    | nil => simp [listLe] at h1
    | cons y bs =>
      simp only [listLe] at h1 h2
      by_cases hxy : x < y
      · rw [if_neg (lt_asymm hxy), if_neg (ne_of_gt hxy)] at h2
        exact absurd h2 (by simp)
      · rw [if_neg hxy] at h1
        by_cases hxy2 : x = y
        · subst hxy2
          rw [if_pos rfl] at h1
          rw [if_neg hxy, if_pos rfl] at h2
          rw [ih bs h1 h2]
        · rw [if_neg hxy2] at h1; exact absurd h1 (by simp)

theorem strLe_total (a b : String) : strLe a b = true ∨ strLe b a = true :=
  listLe_total a.toList b.toList

theorem strLe_trans (a b c : String) :
    strLe a b = true → strLe b c = true → strLe a c = true :=
  listLe_trans a.toList b.toList c.toList

theorem strLe_antisymm (a b : String) :
    strLe a b = true → strLe b a = true → a = b := by
  intro h1 h2
  exact congrArg String.mk (listLe_antisymm a.toList b.toList h1 h2)

theorem optNameLe_total : ∀ (x y : Option String),
    optNameLe x y = true ∨ optNameLe y x = true := by
  intro x y
  cases x with
  | none => exact Or.inl rfl
  | some a =>
    cases y with
    | none => exact Or.inr rfl
    | some b => exact strLe_total a b

theorem optNameLe_trans : ∀ (x y z : Option String),
    optNameLe x y = true → optNameLe y z = true → optNameLe x z = true := by
  intro x y z h1 h2
  cases x with
  | none => rfl
  | some a =>
    cases y with
    | none => simp [optNameLe] at h1
    | some b =>
      cases z with
      | none => simp [optNameLe] at h2
      | some c => exact strLe_trans a b c h1 h2

/-- Totality of the `(country, city, name)` key comparison. -/
theorem keyLe_total : ∀ (a b : ServerRecord), keyLe a b = true ∨ keyLe b a = true := by
  intro a b
  unfold keyLe
  by_cases hab : a.country = b.country
  · rw [if_pos hab, if_pos hab.symm]
    by_cases hc : a.city = b.city
    · rw [if_pos hc, if_pos hc.symm]
      exact optNameLe_total a.name b.name
    · rw [if_neg hc, if_neg (Ne.symm hc)]
      exact strLe_total a.city b.city
  · rw [if_neg hab, if_neg (Ne.symm hab)]
    exact strLe_total a.country b.country

/-- Transitivity of the `(country, city, name)` key comparison. -/
theorem keyLe_trans : ∀ (a b c : ServerRecord),
    keyLe a b = true → keyLe b c = true → keyLe a c = true := by
  intro a b c h1 h2
  unfold keyLe at h1 h2 ⊢
  by_cases hab : a.country = b.country
  · by_cases hbc : b.country = c.country
    · rw [if_pos hab] at h1
      rw [if_pos hbc] at h2
      rw [if_pos (hab.trans hbc)]
      by_cases hab2 : a.city = b.city
      · by_cases hbc2 : b.city = c.city
        · rw [if_pos hab2] at h1
          rw [if_pos hbc2] at h2
          rw [if_pos (hab2.trans hbc2)]
          exact optNameLe_trans _ _ _ h1 h2
        · rw [if_pos hab2] at h1
          rw [if_neg hbc2] at h2
          have hne : a.city ≠ c.city := by rw [hab2]; exact hbc2
          rw [if_neg hne, hab2]
          exact h2
      · by_cases hbc2 : b.city = c.city
        · rw [if_neg hab2] at h1
          have hne : a.city ≠ c.city := by rw [← hbc2]; exact hab2
          rw [if_neg hne, ← hbc2]
          exact h1
        · rw [if_neg hab2] at h1
          rw [if_neg hbc2] at h2
          by_cases hac : a.city = c.city
          · exact absurd (strLe_antisymm _ _ h1 (by rw [hac]; exact h2)) hab2
          · rw [if_neg hac]
            exact strLe_trans _ _ _ h1 h2
    · rw [if_pos hab] at h1
      rw [if_neg hbc] at h2
      have hne : a.country ≠ c.country := by rw [hab]; exact hbc
      rw [if_neg hne, hab]
      exact h2
  · by_cases hbc : b.country = c.country
    · rw [if_neg hab] at h1
      have hne : a.country ≠ c.country := by rw [← hbc]; exact hab
      rw [if_neg hne, ← hbc]
      exact h1
    · rw [if_neg hab] at h1
      rw [if_neg hbc] at h2
      by_cases hac : a.country = c.country
      · exact absurd (strLe_antisymm _ _ h1 (by rw [hac]; exact h2)) hab
      · rw [if_neg hac]
        exact strLe_trans _ _ _ h1 h2

/-- C4: the list returned by `extract_wireguard_servers` is sorted
ascending, case-sensitively on the extracted values, by the tuple
`(country, city, name)`: every pair of consecutive records compares `≤`
under the code-point-lexicographic key comparison `keyLe`. -/
theorem c4_sorted_by_key :
    ∀ (raw : List RawServer) (cf : Option String),
      List.Chain' (fun a b => keyLe a b = true)
        (extract_wireguard_servers raw cf) := by
  intro raw cf
  haveI : IsTrans ServerRecord (fun a b => keyLe a b = true) := ⟨keyLe_trans⟩
  haveI : IsTotal ServerRecord (fun a b => keyLe a b = true) := ⟨keyLe_total⟩
  unfold extract_wireguard_servers
  exact List.Pairwise.chain' (List.sorted_insertionSort _ _)

theorem splitNl_ne_nil : ∀ (l : List Char), splitNl l ≠ [] := by
  intro l
  cases l with
  | nil => simp [splitNl]
  | cons c cs =>
    simp only [splitNl]
    split
    · simp
    · split <;> simp

theorem splitNl_append : ∀ (xs ys : List Char),
    splitNl (xs ++ ys) = glue (splitNl xs) (splitNl ys) := by
  intro xs
  induction xs with
  | nil =>
    intro ys
    cases h : splitNl ys with
    | nil => exact absurd h (splitNl_ne_nil ys)
    | cons b bs => rw [List.nil_append, h]; rfl
  | cons x xs ih =>
    intro ys
    by_cases hx : x = '\n'
    · subst hx
      cases h : splitNl xs with
      | nil => exact absurd h (splitNl_ne_nil xs)
      | cons a as => simp [splitNl, glue, ih, h]
    · cases h : splitNl xs with
      | nil => exact absurd h (splitNl_ne_nil xs)
      | cons a as =>
        cases as with
        | nil =>
          cases hy : splitNl ys with
          | nil => exact absurd hy (splitNl_ne_nil ys)
          | cons b bs => simp [splitNl, glue, hx, ih, h, hy]
        | cons a2 as2 =>
          cases hy : splitNl ys with
          | nil => exact absurd hy (splitNl_ne_nil ys)
          | cons b bs => simp [splitNl, glue, hx, ih, h, hy]

theorem splitNl_nlFree : ∀ (l : List Char), '\n' ∉ l → splitNl l = [l] := by
  intro l h
  induction l with
  | nil => rfl
  | cons c cs ih =>
    have hc : c ≠ '\n' := by
      intro e
      subst e
      exact h (List.mem_cons_self _ _)
    have hcs : '\n' ∉ cs := fun hm => h (List.mem_cons_of_mem c hm)
    simp [splitNl, hc, ih hcs]

theorem mem_splitNl {c : Char} : ∀ (l : List Char), c ∈ l → c ≠ '\n' →
    ∃ line ∈ splitNl l, c ∈ line := by
  intro l
  induction l with
  | nil => intro h; exact absurd h (List.not_mem_nil c)
  | cons x cs ih =>
    intro hmem hc
    by_cases hx : x = '\n'
    · subst hx
      have hcs : c ∈ cs := by
        rcases List.mem_cons.mp hmem with h | h
        · exact absurd h hc
        · exact h
      obtain ⟨line, hline, hcl⟩ := ih hcs hc
      exact ⟨line, by simp [splitNl, hline], hcl⟩
    · cases h : splitNl cs with
      | nil => exact absurd h (splitNl_ne_nil cs)
      | cons a as =>
        rcases List.mem_cons.mp hmem with he | hcs
        · subst he
          exact ⟨c :: a, by simp [splitNl, hx, h], List.mem_cons_self _ _⟩
        · obtain ⟨line, hline, hcl⟩ := ih hcs hc
          rcases List.mem_cons.mp (h ▸ hline) with he | hin
          · subst he
            exact ⟨x :: line, by simp [splitNl, hx, h], List.mem_cons_of_mem _ hcl⟩
          · exact ⟨line, by simp [splitNl, hx, h, hin], hcl⟩

theorem mem_joinNl {c : Char} : ∀ (ls : List (List Char)) (line : List Char),
    line ∈ ls → c ∈ line → c ∈ joinNl ls := by
  intro ls
  induction ls with
  | nil => intro line h; exact absurd h (List.not_mem_nil line)
  | cons a rest ih =>
    intro line hline hcl
    cases rest with
    | nil =>
      have : line = a := by simpa using hline
      subst this
      simpa [joinNl, List.intercalate] using hcl
    | cons b rest2 =>
      have hjoin : joinNl (a :: b :: rest2) = a ++ '\n' :: joinNl (b :: rest2) := by
        simp [joinNl, List.intercalate]
      rw [hjoin]
      rcases List.mem_cons.mp hline with he | hin
      · subst he
        exact List.mem_append_left _ hcl
      · exact List.mem_append_right _ (List.mem_cons_of_mem _ (ih line hin hcl))

theorem commonPre_subset {c : Char} : ∀ (a b : List Char),
    c ∈ commonPre a b → c ∈ a := by
  intro a
  induction a with
  | nil => intro b h; simp [commonPre] at h
  | cons x as ih =>
    intro b h
    cases b with
    | nil => simp [commonPre] at h
    | cons y bs =>
      by_cases hxy : x = y
      · rw [commonPre, if_pos hxy] at h
        rcases List.mem_cons.mp h with he | hin
        · exact he ▸ List.mem_cons_self _ _
        · exact List.mem_cons_of_mem _ (ih bs hin)
      · rw [commonPre, if_neg hxy] at h
        exact absurd h (List.not_mem_nil c)

theorem mem_leadingWs {c : Char} {l : List Char} (h : c ∈ leadingWs l) :
    isIndentChar c = true :=
  List.mem_takeWhile_imp h

/-- Every character of the computed margin is an indent character. -/
theorem margin_indent {c : Char} : ∀ (indents : List (List Char)) (i : List Char),
    (∀ d ∈ i, isIndentChar d = true) →
    c ∈ indents.foldl commonPre i → isIndentChar c = true := by
  intro indents
  induction indents with
  | nil => intro i hi h; exact hi c h
  | cons r rest ih =>
    intro i hi h
    exact ih (commonPre i r) (fun d hd => hi d (commonPre_subset i r hd)) h

theorem mem_dropWhile_of_neg {p : Char → Bool} {c : Char} (hc : p c = false) :
    ∀ (l : List Char), c ∈ l → c ∈ l.dropWhile p := by
  intro l
  induction l with
  | nil => intro h; exact absurd h (List.not_mem_nil c)
  | cons x xs ih =>
    intro hmem
    by_cases hx : p x = true
    · rcases List.mem_cons.mp hmem with he | hin
      · subst he; rw [hx] at hc; exact absurd hc (by simp)
      · rw [List.dropWhile_cons_of_pos hx]
        exact ih hin
    · rw [List.dropWhile_cons_of_neg (by simpa using hx)]
      exact hmem

/-- A character that is neither a newline nor an indent character survives
`dedent`. -/
theorem dedent_mem {c : Char} {l : List Char} (hmem : c ∈ l) (hnl : c ≠ '\n')
    (hind : isIndentChar c = false) : c ∈ dedent l := by
  obtain ⟨line, hline, hcl⟩ := mem_splitNl l hmem hnl
  unfold dedent dedentLines
  set ls := splitNl l with hls
  set blanked := ls.map (fun l => if wsOnly l then [] else l) with hblanked
  set indents := (blanked.filter (fun l => !(l.isEmpty))).map leadingWs with hindents
  set margin := (match indents with
    | [] => []
    | i :: rest => rest.foldl commonPre i) with hmargin
  have hmarginind : ∀ d ∈ margin, isIndentChar d = true := by
    intro d hd
    rw [hmargin] at hd
    cases hin : indents with
    | nil => rw [hin] at hd; exact absurd hd (List.not_mem_nil d)
    | cons i rest =>
      rw [hin] at hd
      have hi : ∀ e ∈ i, isIndentChar e = true := by
        intro e he
        have : i ∈ indents := by rw [hin]; exact List.mem_cons_self _ _
        obtain ⟨l0, -, hl0⟩ := List.mem_map.mp (hindents ▸ this)
        exact mem_leadingWs (hl0 ▸ he)
      exact margin_indent rest i hi hd
  have hwso : wsOnly line = false := by
    unfold wsOnly
    have : line.all isIndentChar = false := by
      rcases Bool.eq_false_or_eq_true (line.all isIndentChar) with h | h
      · exact absurd (List.all_eq_true.mp h c hcl) (by simp [hind])
      · exact h
    simp [this]
  have hline2 : line ∈ blanked := by
    rw [hblanked]
    exact List.mem_map.mpr ⟨line, hline, by rw [hwso]; simp⟩
  refine mem_joinNl _ _ (List.mem_map.mpr ⟨line, hline2, rfl⟩) ?_
  by_cases hpre : margin.isPrefixOf line = true
  · rw [if_pos hpre]
    obtain ⟨rest, hrest⟩ := (List.isPrefixOf_iff_prefix.mp hpre)
    have hcrest : c ∈ rest := by
      rcases List.mem_append.mp (hrest ▸ hcl) with hin | hin
      · exact absurd (hmarginind c hin) (by simp [hind])
      · exact hin
    rw [← hrest, List.drop_left]
    exact hcrest
  · rw [if_neg hpre]
    exact hcl

/-- `strip` of a list containing a non-whitespace character is nonempty and
both of its end characters are non-whitespace. -/
theorem pyStrip_ends {l : List Char} {c : Char} (hmem : c ∈ l)
    (hc : isPySpace c = false) :
    pyStrip l ≠ []
    ∧ (∃ a, (pyStrip l).head? = some a ∧ isPySpace a = false)
    ∧ (∃ b, (pyStrip l).getLast? = some b ∧ isPySpace b = false) := by
  unfold pyStrip
  set d1 := l.dropWhile isPySpace with hd1
  have hc1 : c ∈ d1 := mem_dropWhile_of_neg hc l hmem
  set d2 := d1.reverse.dropWhile isPySpace with hd2
  have hc2 : c ∈ d2 := mem_dropWhile_of_neg hc d1.reverse (List.mem_reverse.mpr hc1)
  have hd2ne : d2 ≠ [] := List.ne_nil_of_mem hc2
  have hd1ne : d1 ≠ [] := List.ne_nil_of_mem hc1
  have hrevne : d2.reverse ≠ [] := by simpa using hd2ne
  refine ⟨hrevne, ?_, ?_⟩
  · -- head of the result: the last element of d2, which is the last
    -- element of d1.reverse (a suffix of it), i.e. the head of d1.
    have hsplit : d1.reverse.takeWhile isPySpace ++ d2 = d1.reverse := by
      rw [hd2]; exact List.takeWhile_append_dropWhile _ _
    have hlast : d2.getLast? = d1.reverse.getLast? := by
      conv_rhs => rw [← hsplit]
      rw [List.getLast?_append, List.getLast?_eq_getLast d2 hd2ne]
      rfl
    have hhead : (d2.reverse).head? = d1.head? := by
      rw [List.head?_reverse, hlast, List.getLast?_reverse]
    refine ⟨d1.head hd1ne, ?_, ?_⟩
    · rw [hhead, List.head?_eq_head hd1ne]
    · simpa using List.head_dropWhile_not isPySpace l (hd1 ▸ hd1ne)
  · refine ⟨d2.head hd2ne, ?_, ?_⟩
    · rw [List.getLast?_reverse, List.head?_eq_head hd2ne]
    · simpa using List.head_dropWhile_not isPySpace d1.reverse (hd2 ▸ hd2ne)

theorem build_chars (private_key : String) (server : ServerRecord) :
    (build_wireguard_config private_key server).toList
      = pyStrip (dedent (cfgRaw private_key.toList server.public_key.toList
          (pyShowOptStr server.ip).toList)) ++ ['\n'] := rfl

theorem cfgRaw_splitNl (pk pub ip : List Char) (hpk : '\n' ∉ pk)
    (hpub : '\n' ∉ pub) (hip : '\n' ∉ ip) :
    splitNl (cfgRaw pk pub ip)
      = [[],
         "        [Interface]".toList,
         "        PrivateKey = ".toList ++ pk,
         "        Address    = 10.5.0.2/32".toList,
         "        DNS        = 103.86.96.100, 103.86.99.100".toList,
         [],
         "        [Peer]".toList,
         "        PublicKey           = ".toList ++ pub,
         "        AllowedIPs         = 0.0.0.0/0, ::/0".toList,
         "        Endpoint           = ".toList ++ (ip ++ ":51820".toList),
         "        PersistentKeepalive = 25".toList,
         "        ".toList] := by
  have e1 : splitNl "\n        [Interface]\n        PrivateKey = ".toList
      = [[], "        [Interface]".toList, "        PrivateKey = ".toList] := rfl
  have e2 : splitNl "\n        Address    = ".toList
      = [[], "        Address    = ".toList] := rfl
  have e3 : splitNl "10.5.0.2/32".toList = ["10.5.0.2/32".toList] := rfl
  have e4 : splitNl "\n        DNS        = ".toList
      = [[], "        DNS        = ".toList] := rfl
  have e5 : splitNl "103.86.96.100, 103.86.99.100".toList
      = ["103.86.96.100, 103.86.99.100".toList] := rfl
  have e6 : splitNl "\n\n        [Peer]\n        PublicKey           = ".toList
      = [[], [], "        [Peer]".toList, "        PublicKey           = ".toList] := rfl
  have e7 : splitNl "\n        AllowedIPs         = 0.0.0.0/0, ::/0\n        Endpoint           = ".toList
      = [[], "        AllowedIPs         = 0.0.0.0/0, ::/0".toList,
         "        Endpoint           = ".toList] := rfl
  have e8 : splitNl ":51820\n        PersistentKeepalive = 25\n        ".toList
      = [":51820".toList, "        PersistentKeepalive = 25".toList,
         "        ".toList] := rfl
  unfold cfgRaw
  simp only [splitNl_append, splitNl_nlFree pk hpk, splitNl_nlFree pub hpub,
    splitNl_nlFree ip hip, e1, e2, e3, e4, e5, e6, e7, e8]
  simp [glue, List.append_assoc]

set_option maxRecDepth 20000 in
set_option maxHeartbeats 4000000 in
theorem cfgRaw_dedentLines (pk pub ip : List Char) :
    dedentLines
      [[],
       "        [Interface]".toList,
       "        PrivateKey = ".toList ++ pk,
       "        Address    = 10.5.0.2/32".toList,
       "        DNS        = 103.86.96.100, 103.86.99.100".toList,
       [],
       "        [Peer]".toList,
       "        PublicKey           = ".toList ++ pub,
       "        AllowedIPs         = 0.0.0.0/0, ::/0".toList,
       "        Endpoint           = ".toList ++ (ip ++ ":51820".toList),
       "        PersistentKeepalive = 25".toList,
       "        ".toList]
    = [[],
       "[Interface]".toList,
       "PrivateKey = ".toList ++ pk,
       "Address    = 10.5.0.2/32".toList,
       "DNS        = 103.86.96.100, 103.86.99.100".toList,
       [],
       "[Peer]".toList,
       "PublicKey           = ".toList ++ pub,
       "AllowedIPs         = 0.0.0.0/0, ::/0".toList,
       "Endpoint           = ".toList ++ (ip ++ ":51820".toList),
       "PersistentKeepalive = 25".toList,
       []] := by rfl

set_option maxRecDepth 20000 in
set_option maxHeartbeats 1000000 in
theorem cfgRaw_dedent (pk pub ip : List Char) (hpk : '\n' ∉ pk)
    (hpub : '\n' ∉ pub) (hip : '\n' ∉ ip) :
    dedent (cfgRaw pk pub ip)
      = "\n[Interface]\nPrivateKey = ".toList
        ++ (pk ++ ("\nAddress    = 10.5.0.2/32\nDNS        = 103.86.96.100, 103.86.99.100\n\n[Peer]\nPublicKey           = ".toList
        ++ (pub ++ ("\nAllowedIPs         = 0.0.0.0/0, ::/0\nEndpoint           = ".toList
        ++ ((ip ++ ":51820".toList) ++ "\nPersistentKeepalive = 25\n".toList))))) := by
  rw [dedent, cfgRaw_splitNl pk pub ip hpk hpub hip, cfgRaw_dedentLines pk pub ip]
  rfl

set_option maxRecDepth 20000 in
set_option maxHeartbeats 1000000 in
theorem cfgRaw_stripped (pk pub ip : List Char) (hpk : '\n' ∉ pk)
    (hpub : '\n' ∉ pub) (hip : '\n' ∉ ip) :
    pyStrip (dedent (cfgRaw pk pub ip))
      = "[Interface]\nPrivateKey = ".toList
        ++ (pk ++ ("\nAddress    = 10.5.0.2/32\nDNS        = 103.86.96.100, 103.86.99.100\n\n[Peer]\nPublicKey           = ".toList
        ++ (pub ++ ("\nAllowedIPs         = 0.0.0.0/0, ::/0\nEndpoint           = ".toList
        ++ ((ip ++ ":51820".toList) ++ "\nPersistentKeepalive = 25".toList))))) := by
  rw [cfgRaw_dedent pk pub ip hpk hpub hip]
  unfold pyStrip
  rw [List.dropWhile_append]
  rw [show ("\n[Interface]\nPrivateKey = ".toList.dropWhile isPySpace)
      = "[Interface]\nPrivateKey = ".toList from rfl]
  rw [show ("[Interface]\nPrivateKey = ".toList.isEmpty) = false from rfl]
  simp only [Bool.false_eq_true, if_false, List.reverse_append, List.append_assoc]
  rw [List.dropWhile_append, List.dropWhile_append]
  rw [show ("\nPersistentKeepalive = 25\n".toList.reverse.dropWhile isPySpace)
      = "\nPersistentKeepalive = 25".toList.reverse from rfl]
  rw [show ("\nPersistentKeepalive = 25".toList.reverse.isEmpty) = false from rfl]
  simp only [Bool.false_eq_true, if_false, List.reverse_append, List.reverse_reverse,
    List.append_assoc]

set_option maxRecDepth 20000 in
set_option maxHeartbeats 1000000 in
theorem cfgRaw_out_lines (pk pub ip : List Char) (hpk : '\n' ∉ pk)
    (hpub : '\n' ∉ pub) (hip : '\n' ∉ ip) :
    splitNl (pyStrip (dedent (cfgRaw pk pub ip)) ++ ['\n'])
      = ["[Interface]".toList,
         "PrivateKey = ".toList ++ pk,
         "Address    = 10.5.0.2/32".toList,
         "DNS        = 103.86.96.100, 103.86.99.100".toList,
         [],
         "[Peer]".toList,
         "PublicKey           = ".toList ++ pub,
         "AllowedIPs         = 0.0.0.0/0, ::/0".toList,
         "Endpoint           = ".toList ++ (ip ++ ":51820".toList),
         "PersistentKeepalive = 25".toList,
         []] := by
  rw [cfgRaw_stripped pk pub ip hpk hpub hip]
  have f1 : splitNl "[Interface]\nPrivateKey = ".toList
      = ["[Interface]".toList, "PrivateKey = ".toList] := rfl
  have f2 : splitNl "\nAddress    = 10.5.0.2/32\nDNS        = 103.86.96.100, 103.86.99.100\n\n[Peer]\nPublicKey           = ".toList
      = [[], "Address    = 10.5.0.2/32".toList,
         "DNS        = 103.86.96.100, 103.86.99.100".toList, [],
         "[Peer]".toList, "PublicKey           = ".toList] := rfl
  have f3 : splitNl "\nAllowedIPs         = 0.0.0.0/0, ::/0\nEndpoint           = ".toList
      = [[], "AllowedIPs         = 0.0.0.0/0, ::/0".toList,
         "Endpoint           = ".toList] := rfl
  have f4 : splitNl ":51820".toList = [":51820".toList] := rfl
  have f5 : splitNl "\nPersistentKeepalive = 25".toList
      = [[], "PersistentKeepalive = 25".toList] := rfl
  have f6 : splitNl ['\n'] = [[], []] := rfl
  simp only [splitNl_append, splitNl_nlFree pk hpk, splitNl_nlFree pub hpub,
    splitNl_nlFree ip hip, f1, f2, f3, f4, f5, f6]
  simp [glue, List.append_assoc]

/-- C6, counterexample.  The claim quantifies over every `private_key`;
for the private key `"x\n        [Peer]"` the rendered output contains two
`[Peer]` section header lines, not exactly one (the injected line is
dedented together with the template, exactly as CPython renders it). -/
theorem c6_render_counterexample :
    headerLines "[Peer]"
        (build_wireguard_config "x\n        [Peer]" sampleServer) = 2 := by
  rfl

set_option maxRecDepth 20000 in
set_option maxHeartbeats 2000000 in
/-- C6, amended: `build_wireguard_config` is a pure function of
`(private_key, server)` — the embedding renders it as a Lean function, so
identical inputs give byte-identical output by construction — and for
every input its output starts with a non-whitespace character (no leading
blank lines) and ends with exactly one trailing newline (last character
`'\n'`, the character before it non-whitespace).  The
exactly-one-`[Interface]`-and-one-`[Peer]`-section property does not hold
for all inputs (see the counterexample); it holds whenever the three
interpolated values — the private key, the server public key and the
rendered server IP — contain no newline character. -/
theorem c6_render_structure :
    ∀ (private_key : String) (server : ServerRecord),
      (∃ a, (build_wireguard_config private_key server).toList.head? = some a
          ∧ isPySpace a = false)
      ∧ (build_wireguard_config private_key server).toList.getLast? = some '\n'
      ∧ (∃ b, (build_wireguard_config private_key server).toList.dropLast.getLast?
            = some b ∧ isPySpace b = false)
      ∧ ('\n' ∉ private_key.toList → '\n' ∉ server.public_key.toList →
          '\n' ∉ (pyShowOptStr server.ip).toList →
          headerLines "[Interface]" (build_wireguard_config private_key server) = 1
          ∧ headerLines "[Peer]" (build_wireguard_config private_key server) = 1) := by
  intro private_key server
  set pk := private_key.toList with hpkdef
  set pub := server.public_key.toList with hpubdef
  set ip := (pyShowOptStr server.ip).toList with hipdef
  have hmemI : 'I' ∈ cfgRaw pk pub ip := by
    unfold cfgRaw
    repeat apply List.mem_append_left
    decide
  have hmemD : 'I' ∈ dedent (cfgRaw pk pub ip) :=
    dedent_mem hmemI (by decide) (by decide)
  obtain ⟨hne, ⟨a, hahead, haws⟩, ⟨b, hblast, hbws⟩⟩ :=
    pyStrip_ends hmemD (by decide)
  have hout : (build_wireguard_config private_key server).toList
      = pyStrip (dedent (cfgRaw pk pub ip)) ++ ['\n'] := build_chars _ _
  refine ⟨⟨a, ?_, haws⟩, ?_, ⟨b, ?_, hbws⟩, ?_⟩
  · rw [hout, List.head?_append, hahead]
    rfl
  · rw [hout]
    exact List.getLast?_concat _
  · rw [hout, List.dropLast_concat]
    exact hblast
  · intro hpk hpub hip
    constructor
    · unfold headerLines
      rw [hout, cfgRaw_out_lines pk pub ip hpk hpub hip]
      rfl
    · unfold headerLines
      rw [hout, cfgRaw_out_lines pk pub ip hpk hpub hip]
      rfl

/-- C6, witness: the structural properties at a concrete newline-free
input. -/
theorem c6_render_structure_witness :
    headerLines "[Interface]" (build_wireguard_config "PK" sampleServer) = 1
    ∧ headerLines "[Peer]" (build_wireguard_config "PK" sampleServer) = 1 :=
  (c6_render_structure "PK" sampleServer).2.2.2 (by decide) (by decide) (by decide)

end NordWG
